import Mathlib

/-!
# Verification of the call-turn orchestration engine

Shallow embedding of the appointment-booking voice service: the slot
matcher and turn processing of `app.py`, the bounded tool-calling loop of
`scheduler/openia.py`, the per-call sequence counter, and the ephemeral
HMAC-signed TTS token scheme shared by `voice/azure.py` and
`voice/elevenlabs.py`.  External collaborators (the Google Calendar
scheduler, the OpenAI chat endpoint, the TTS backends) are modelled as
oracles passed in as function arguments, exactly at the call sites where
the source invokes them.
-/

namespace VoiceDemo

/-- An appointment slot as handled by `app.py` and `openia.py` (dict keys
`texto`, `doctor`, `iso_inicio`, `iso_fin`); a missing or `None` field is
modelled as the empty string. -/
structure Slot where
  texto : String
  doctor : String
  iso_inicio : String
  iso_fin : String
deriving DecidableEq, Repr

/-- Arguments of a `schedule` action (`act.get("index")`,
`act.get("iso_inicio")`, `act.get("iso_fin")` in `twilio_speech_result`);
`none` models an absent key or `None`. -/
structure ScheduleAction where
  index : Option Int
  iso_inicio : Option String
  iso_fin : Option String
deriving DecidableEq, Repr

/-- Python truthiness of an optional string, as used by
`act.get("iso_inicio") and act.get("iso_fin")` in app.py line 543. -/
def strTruthy : Option String → Bool
  | some s => s != ""
  | none => false

/-- Python `str.strip()` on character lists: drop whitespace at both ends. -/
def stripChars (l : List Char) : List Char :=
  ((l.dropWhile Char.isWhitespace).reverse.dropWhile Char.isWhitespace).reverse

/-- Python `str.strip()`. -/
def pyStrip (s : String) : String := String.mk (stripChars s.data)

/-- Accumulating splitter behind `pyWords` (Python `str.split()` with no
separator: split on whitespace runs, no empty words). -/
def splitWSAux : List Char → List Char → List (List Char)
  | [], acc => if acc.isEmpty then [] else [acc.reverse]
  | c :: rest, acc =>
    if c.isWhitespace then
      if acc.isEmpty then splitWSAux rest [] else acc.reverse :: splitWSAux rest []
    else splitWSAux rest (c :: acc)

/-- Python `str.split()` with no separator. -/
def pyWords (s : String) : List String := (splitWSAux s.data []).map String.mk

/-- `find_slot_by_datetime` (app.py 174-179): the first slot whose
`iso_inicio` equals the requested ISO string. -/
def find_slot_by_datetime (slots : List Slot) (iso : String) : Option Slot :=
  slots.find? (fun s => s.iso_inicio == iso)

/-- The slot that `twilio_speech_result` passes to
`save_appointment_to_services` for one `schedule` action (app.py 539-563):
when both ISO fields are (truthily) present, the matching offered slot or
else a synthetic fallback slot; otherwise the indexed slot when the index
is in bounds; otherwise no booking attempt (`ok = False`). -/
def resolveSchedule (slots : List Slot) (a : ScheduleAction) : Option Slot :=
  if strTruthy a.iso_inicio && strTruthy a.iso_fin then
    match find_slot_by_datetime slots (a.iso_inicio.getD "") with
    | some s => some s
    | none =>
      some { texto := "cita por fecha/hora solicitada", doctor := "Doctor",
             iso_inicio := a.iso_inicio.getD "", iso_fin := a.iso_fin.getD "" }
  else
    match a.index with
    | some idx => if 0 ≤ idx ∧ idx < slots.length then slots.get? idx.toNat else none
    | none => none

/-- An entry of the reply's `actions` list; only `type == "schedule"` is
understood by `twilio_speech_result`, anything else is skipped. -/
inductive AgentAction where
  | schedule (a : ScheduleAction)
  | other
deriving DecidableEq, Repr

/-- The assistant reply dict consumed by `twilio_speech_result`:
`say_text`, `actions`, optional `slots`, `end_call`. -/
structure AgentReply where
  say_text : String
  actions : List AgentAction
  slots : Option (List Slot)
  end_call : Bool
deriving DecidableEq, Repr

/-- `save_appointment_to_services` (app.py 181-240): the Calendar booking
is attempted only when the slot carries both ISO datetimes (truthily);
`calOk` abstracts the outcome of the external
`calendar.create_appointment` call (a truthy event id). -/
def save_appointment_to_services (calOk : Slot → Bool) (s : Slot) : Bool :=
  if s.iso_inicio != "" && s.iso_fin != "" then calOk s else false

/-- Among the slots handed to `save_appointment_to_services`, those for
which the external `calendar.create_appointment` is actually invoked
(both dates truthily present, app.py 198-211). -/
def createAppointmentCalls (saved : List Slot) : List Slot :=
  saved.filter (fun s => s.iso_inicio != "" && s.iso_fin != "")

/-- Confirmation phrase appended on booking success (app.py 566). -/
def confirmationPhrase : String :=
  "¡Listo! Tu cita quedó agendada. Te enviaremos la confirmación."

/-- Recovery phrase appended on booking failure (app.py 569). -/
def recoveryPhrase : String :=
  "No pude agendar con ese horario. ¿Quieres que te proponga otras opciones?"

/-- Result of the state-mutating part of one `twilio_speech_result` turn:
slots handed to `save_appointment_to_services`, the assembled spoken
parts, the final `end_call`, and the stored slot list after the sync. -/
structure TurnResult where
  saved : List Slot
  say_parts : List String
  end_call : Bool
  slots : List Slot
deriving DecidableEq, Repr

/-- One iteration of the action loop of `twilio_speech_result`
(app.py 538-569), threading (saved bookings, say_parts, end_call). -/
def scheduleStep (calOk : Slot → Bool) (slots : List Slot)
    (acc : List Slot × List String × Bool) (act : AgentAction) :
    List Slot × List String × Bool :=
  match act with
  | .other => acc
  | .schedule a =>
    match resolveSchedule slots a with
    | some s =>
      if save_appointment_to_services calOk s then
        (acc.1 ++ [s], acc.2.1 ++ [confirmationPhrase], true)
      else
        (acc.1 ++ [s], acc.2.1 ++ [recoveryPhrase], acc.2.2)
    | none => (acc.1, acc.2.1 ++ [recoveryPhrase], acc.2.2)

/-- The slot sync of app.py 530-534: `if new_slots: state["slots"] = new_slots`
(a Python-truthy, i.e. nonempty, list fully replaces the stored one). -/
def slotsAfter (stateSlots : List Slot) (newSlots : Option (List Slot)) : List Slot :=
  match newSlots with
  | some l => if l.isEmpty then stateSlots else l
  | none => stateSlots

/-- Slot sync, action loop and say-text assembly of `twilio_speech_result`
(app.py 530-583). -/
def processTurn (calOk : Slot → Bool) (stateSlots : List Slot)
    (reply : AgentReply) : TurnResult :=
  let slots := slotsAfter stateSlots reply.slots
  let r := reply.actions.foldl (scheduleStep calOk slots) ([], [], reply.end_call)
  let mainText := pyStrip reply.say_text
  let parts := if mainText = "" then r.2.1 else mainText :: r.2.1
  { saved := r.1, say_parts := parts, end_call := r.2.2, slots := slots }

/-- The slots passed to `save_appointment_to_services` by a turn, in
action order (closed form of the loop's first accumulator). -/
def scheduledSaves (slots : List Slot) (acts : List AgentAction) : List Slot :=
  acts.filterMap (fun act => match act with
    | .other => none
    | .schedule a => resolveSchedule slots a)

/-- Booking outcome (the `ok` flag of app.py 547-563) of each schedule
action of a turn, in action order. -/
def actionOutcomes (calOk : Slot → Bool) (slots : List Slot) :
    List AgentAction → List Bool
  | [] => []
  | .other :: rest => actionOutcomes calOk slots rest
  | .schedule a :: rest =>
    (match resolveSchedule slots a with
     | some s => save_appointment_to_services calOk s
     | none => false) :: actionOutcomes calOk slots rest

/-- Phrase appended for one schedule action (app.py 565-569). -/
def outcomePhrase (ok : Bool) : String :=
  if ok then confirmationPhrase else recoveryPhrase

/-- Closed form of the action-loop fold of `twilio_speech_result`. -/
theorem scheduleStep_foldl (calOk : Slot → Bool) (slots : List Slot)
    (acts : List AgentAction) :
    ∀ (xs : List Slot) (ps : List String) (e : Bool),
      acts.foldl (scheduleStep calOk slots) (xs, ps, e)
        = (xs ++ scheduledSaves slots acts,
           ps ++ (actionOutcomes calOk slots acts).map outcomePhrase,
           e || (actionOutcomes calOk slots acts).any id) := by
  induction acts with
  | nil => intro xs ps e; simp [scheduledSaves, actionOutcomes]
  | cons act rest ih =>
    intro xs ps e
    cases act with
    | other =>
      simp [List.foldl_cons, scheduleStep, scheduledSaves, actionOutcomes, ih]
    | schedule a =>
      cases hres : resolveSchedule slots a with
      | none =>
        simp [List.foldl_cons, scheduleStep, hres, ih, scheduledSaves,
          actionOutcomes, outcomePhrase, List.filterMap_cons]
      | some s =>
        cases hok : save_appointment_to_services calOk s with
        | false =>
          simp [List.foldl_cons, scheduleStep, hres, hok, ih, scheduledSaves,
            actionOutcomes, outcomePhrase, List.filterMap_cons]
        | true =>
          simp [List.foldl_cons, scheduleStep, hres, hok, ih, scheduledSaves,
            actionOutcomes, outcomePhrase, List.filterMap_cons]

/-- Closed form of `processTurn`. -/
theorem processTurn_eq (calOk : Slot → Bool) (stateSlots : List Slot)
    (reply : AgentReply) :
    processTurn calOk stateSlots reply
      = { saved := scheduledSaves (slotsAfter stateSlots reply.slots) reply.actions,
          say_parts :=
            (if pyStrip reply.say_text = "" then [] else [pyStrip reply.say_text]) ++
              (actionOutcomes calOk (slotsAfter stateSlots reply.slots)
                reply.actions).map outcomePhrase,
          end_call := reply.end_call ||
            (actionOutcomes calOk (slotsAfter stateSlots reply.slots)
              reply.actions).any id,
          slots := slotsAfter stateSlots reply.slots } := by
  unfold processTurn
  simp only [scheduleStep_foldl]
  by_cases h : pyStrip reply.say_text = "" <;> simp [h]

/-! ## TwiML responses and TTS fallback (app.py 118-172, 579-612) -/

/-- Shape of the TwiML document returned to Twilio: play audio then gather
speech, play audio then stop (call ends), an explicit hangup, or a bare
re-prompt gather with no audio. -/
inductive Twiml where
  | playGather
  | playOnly
  | hangup
  | gatherBasic
deriving DecidableEq, Repr

/-- `speak_with_tts_and_build_twiml` (app.py 149-172): `none` when the text
is blank or the synthesizer fails or returns empty audio; otherwise a
`<Play>` TwiML, with a follow-up `<Gather>` when `gather_after`.  `tts`
abstracts the selected voice provider's `generate_audio`. -/
def speak_with_tts (tts : String → Option (List Nat)) (text : String)
    (gather_after : Bool) : Option Twiml :=
  if pyStrip text = "" then none
  else
    match tts text with
    | none => none
    | some audio =>
      if audio.isEmpty then none
      else some (if gather_after then Twiml.playGather else Twiml.playOnly)

/-- The response phase of `twilio_speech_result` (app.py 579-612): try the
TTS TwiML for the joined say-parts; otherwise fall back to `<Hangup>` when
the call ends, or to a bare speech `<Gather>` when it continues. -/
def turnResponse (tts : String → Option (List Nat)) (say_parts : List String)
    (end_call : Bool) : Twiml :=
  let fallback := if end_call then Twiml.hangup else Twiml.gatherBasic
  if say_parts.isEmpty then fallback
  else
    match speak_with_tts tts (String.intercalate " " say_parts) (!end_call) with
    | some t => t
    | none => fallback

/-! ## Per-call sequence counter (app.py 113-116) -/

/-- `next_seq` (app.py 113-116) acting on the stored `"seq"` value of one
call record; `none` models a fresh record (`setdefault` + `get("seq", 0)`).
Returns the handed-out value and the updated stored value. -/
def next_seq (st : Option Nat) : Nat × Option Nat :=
  let v := st.getD 0 + 1
  (v, some v)

/-- The values handed out by `n` successive `next_seq` calls for one call. -/
def seqOutputs : Option Nat → Nat → List Nat
  | _, 0 => []
  | st, n + 1 => (next_seq st).1 :: seqOutputs (next_seq st).2 n

theorem seqOutputs_some (s : Nat) : ∀ n, seqOutputs (some s) n = List.range' (s + 1) n := by
  intro n
  induction n generalizing s with
  | zero => simp [seqOutputs]
  | succ n ih => simp [seqOutputs, next_seq, List.range', ih]

/-! ## Ephemeral TTS tokens (voice/azure.py 179-210, voice/elevenlabs.py 188-212)

Tokens are modelled as `List Char`.  The HMAC-SHA256 primitive is external
(`hashlib`), so it is modelled as an injective, dot-free fingerprint of
(secret, message); everything else — token layout, the `split(".", 1)`,
the `int()` parse, the expiry comparison, the digest comparison — follows
the source line by line. -/

/-- Decimal digit character, `0 ≤ d ≤ 9` giving `'0'`-`'9'`. -/
def digitChar (d : Nat) : Char := Char.ofNat (48 + d)

/-- Little-endian decimal digit characters of `n`; `fuel` only bounds the
recursion, any `fuel ≥ n` yields all digits. -/
def digitsRev : Nat → Nat → List Char
  | 0, _ => []
  | fuel + 1, n => if n = 0 then [] else digitChar (n % 10) :: digitsRev fuel (n / 10)

/-- Python `str(n)` for a natural number (most significant digit first). -/
def natStr (n : Nat) : List Char :=
  if n = 0 then ['0'] else (digitsRev n n).reverse

/-- Modelled subset of the Unicode decimal digits (category Nd) accepted
by Python `int()`: ASCII `'0'`-`'9'`, Arabic-Indic `U+0660`-`U+0669` and
fullwidth `U+FF10`-`U+FF19` digits, each with its decimal value. -/
def pyDigitVal (c : Char) : Option Nat :=
  if 48 ≤ c.toNat ∧ c.toNat ≤ 57 then some (c.toNat - 48)
  else if 1632 ≤ c.toNat ∧ c.toNat ≤ 1641 then some (c.toNat - 1632)
  else if 65296 ≤ c.toNat ∧ c.toNat ≤ 65305 then some (c.toNat - 65296)
  else none

/-- ASCII whitespace stripped by Python `int()` around the number. -/
def isPySpace (c : Char) : Bool :=
  c == ' ' || c == '\t' || c == '\n' || c == '\r' || c.toNat == 11 || c.toNat == 12

/-- Whether a list starts with a decimal digit. -/
def headIsDigit : List Char → Bool
  | [] => false
  | c :: _ => (pyDigitVal c).isSome

/-- Well-formed tail of the digit run of Python `int()` (the first digit
has already been consumed): every character is a digit, except that a
single `'_'` may appear between two digits. -/
def goodTail : List Char → Bool
  | [] => true
  | c :: rest =>
    (if c = '_' then headIsDigit rest else (pyDigitVal c).isSome) && goodTail rest

/-- Underscores are ignored by Python `int()` once placement is checked. -/
def stripUnderscores (l : List Char) : List Char := l.filter (fun c => c != '_')

/-- Decimal value of a digit character (0 for non-digits). -/
def dval (c : Char) : Nat := (pyDigitVal c).getD 0

/-- Tail of the digit run of Python `int()`: decimal digits with single
underscores allowed between two digits, accumulated into `acc`. -/
def pyDigitsAux (l : List Char) (acc : Nat) : Option Nat :=
  if goodTail l then
    some ((stripUnderscores l).foldl (fun a c => 10 * a + dval c) acc)
  else none

/-- Nonempty digit run: the first character must be a digit. -/
def pyNatDigits : List Char → Option Nat
  | [] => none
  | c :: rest =>
    match pyDigitVal c with
    | some d => pyDigitsAux rest d
    | none => none

/-- Sign handling of Python `int(s)`: an optional single leading sign,
then a nonempty digit run. -/
def pyIntCore (l : List Char) : Option Int :=
  match l with
  | [] => none
  | c :: rest =>
    if c = '+' then (pyNatDigits rest).map (fun n => (n : Int))
    else if c = '-' then (pyNatDigits rest).map (fun n => -(n : Int))
    else (pyNatDigits (c :: rest)).map (fun n => (n : Int))

/-- Python `int(s)` on a string: strip surrounding whitespace, take an
optional single sign, then a digit run; `none` is a `ValueError`. -/
def pyInt (l : List Char) : Option Int :=
  pyIntCore (((l.dropWhile isPySpace).reverse.dropWhile isPySpace).reverse)

/-- Per-character block of the modelled digest: a marker plus the decimal
code point, an unambiguous (hence injective) dot-free encoding. -/
def hmacBlock (c : Char) : List Char := 'x' :: natStr c.toNat

/-- Model of `hmac.new(secret, message, sha256).hexdigest()`.  The token
logic relies on exactly two facts about the digest, which this model has
by construction: distinct (secret, message) pairs give distinct digests,
and a digest never contains `'.'`. -/
def hmacHex (secret message : List Char) : List Char :=
  (secret ++ '#' :: message).flatMap hmacBlock

/-- The signed message `f"{call_id}:{seq}:{expires}"` (azure.py 185, 201). -/
def tokenMessage (call_id : List Char) (seq expires : Nat) : List Char :=
  call_id ++ ':' :: (natStr seq ++ ':' :: natStr expires)

/-- `create_tts_token` (azure.py 179-191, elevenlabs.py 188-196):
`"{expires}.{signature}"` with `expires = int(time.time()) + ttl`. -/
def create_tts_token (secret call_id : List Char) (seq now ttl : Nat) : List Char :=
  natStr (now + ttl) ++ '.' :: hmacHex secret (tokenMessage call_id seq (now + ttl))

/-- Python `token.split(".", 1)` when it produces two parts; `none` models
the unpacking `ValueError` when the token has no dot. -/
def splitFirstDot : List Char → Option (List Char × List Char)
  | [] => none
  | c :: rest =>
    if c = '.' then some ([], rest)
    else (splitFirstDot rest).map (fun p => (c :: p.1, p.2))

/-- `validate_tts_token` (azure.py 193-210, elevenlabs.py 198-212): split
at the first dot, parse the expiry with `int()`, reject when
`time.time() > expires`, then recompute the signature over
`f"{call_id}:{seq}:{expires}"` and compare digests.  Every parsing
failure lands in the `except` branch returning `False`. -/
def validate_tts_token (secret call_id : List Char) (seq now : Nat)
    (token : List Char) : Bool :=
  match splitFirstDot token with
  | none => false
  | some (expStr, signature) =>
    match pyInt expStr with
    | none => false
    | some expires =>
      if (now : Int) > expires then false
      else signature == hmacHex secret (tokenMessage call_id seq expires.toNat)

/-- HTTP outcome of `GET /audio/{call_id}/{seq}` (app.py 614-633). -/
inductive AudioResp where
  | unauthorized
  | notFound
  | ok
deriving DecidableEq, Repr

/-- `serve_tts_audio` (app.py 614-633): `401` on an invalid or expired
token, `404` when the cached audio is absent or empty, `200` otherwise. -/
def serve_tts_audio (secret call_id : List Char) (seq now : Nat)
    (token : List Char) (audio : Option (List Nat)) : AudioResp :=
  if validate_tts_token secret call_id seq now token then
    match audio with
    | some b => if b.isEmpty then AudioResp.notFound else AudioResp.ok
    | none => AudioResp.notFound
  else AudioResp.unauthorized

/-! ### Facts about digits, `natStr` and `pyInt` -/

theorem char_toNat_inj {c d : Char} (h : c.toNat = d.toNat) : c = d :=
  Char.ext (UInt32.ext h)

theorem pyDigitVal_digitChar {d : Nat} (h : d < 10) : pyDigitVal (digitChar d) = some d := by
  interval_cases d <;> decide

theorem digitChar_ne_dot {d : Nat} (h : d < 10) : digitChar d ≠ '.' := by
  interval_cases d <;> decide

theorem digitChar_ne_x {d : Nat} (h : d < 10) : digitChar d ≠ 'x' := by
  interval_cases d <;> decide

theorem digitChar_ne_plus {d : Nat} (h : d < 10) : digitChar d ≠ '+' := by
  interval_cases d <;> decide

theorem digitChar_ne_minus {d : Nat} (h : d < 10) : digitChar d ≠ '-' := by
  interval_cases d <;> decide

theorem digitChar_not_space {d : Nat} (h : d < 10) : isPySpace (digitChar d) = false := by
  interval_cases d <;> decide

/-- Value of a little-endian digit-character list. -/
def valLE : List Char → Nat
  | [] => 0
  | c :: l => dval c + 10 * valLE l

theorem digitsRev_spec :
    ∀ n fuel, n ≤ fuel →
      valLE (digitsRev fuel n) = n ∧
        ∀ c ∈ digitsRev fuel n, ∃ d, d < 10 ∧ c = digitChar d := by
  intro n
  induction n using Nat.strong_induction_on with
  | _ n ih =>
    intro fuel hle
    match fuel with
    | 0 =>
      have : n = 0 := Nat.le_zero.mp hle
      subst this
      exact ⟨rfl, by simp [digitsRev]⟩
    | fuel + 1 =>
      by_cases hn : n = 0
      · subst hn; exact ⟨rfl, by simp [digitsRev]⟩
      · have hdiv : n / 10 < n := Nat.div_lt_self (Nat.pos_of_ne_zero hn) (by norm_num)
        have hle2 : n / 10 ≤ fuel := by omega
        obtain ⟨h1, h2⟩ := ih (n / 10) hdiv fuel hle2
        have hmod : n % 10 < 10 := Nat.mod_lt n (by norm_num)
        constructor
        · simp only [digitsRev, if_neg hn, valLE, dval, pyDigitVal_digitChar hmod,
            Option.getD_some, h1]
          omega
        · intro c hc
          simp only [digitsRev, if_neg hn, List.mem_cons] at hc
          rcases hc with hc | hc
          · exact ⟨n % 10, hmod, hc⟩
          · exact h2 c hc

theorem natStr_digits (n : Nat) : ∀ c ∈ natStr n, ∃ d, d < 10 ∧ c = digitChar d := by
  intro c hc
  unfold natStr at hc
  by_cases hn : n = 0
  · rw [if_pos hn] at hc
    simp at hc
    exact ⟨0, by norm_num, by rw [hc]; decide⟩
  · rw [if_neg hn, List.mem_reverse] at hc
    exact (digitsRev_spec n n le_rfl).2 c hc

theorem natStr_ne_nil (n : Nat) : natStr n ≠ [] := by
  unfold natStr
  by_cases hn : n = 0
  · simp [hn]
  · rw [if_neg hn]
    intro h
    have hval : valLE (digitsRev n n) = n := (digitsRev_spec n n le_rfl).1
    rw [List.reverse_eq_nil_iff] at h
    rw [h] at hval
    exact hn (by simpa [valLE] using hval.symm)

theorem natStr_ne_dot (n : Nat) : ∀ c ∈ natStr n, c ≠ '.' := by
  intro c hc
  obtain ⟨d, hd, rfl⟩ := natStr_digits n c hc
  exact digitChar_ne_dot hd

theorem pyDigitVal_underscore : pyDigitVal '_' = none := by decide

theorem goodTail_of_digits :
    ∀ l : List Char, (∀ c ∈ l, (pyDigitVal c).isSome) → goodTail l = true := by
  intro l
  induction l with
  | nil => intro _; rfl
  | cons c t ih =>
    intro hall
    have hc := hall c (by simp)
    have hcu : c ≠ '_' := by
      intro h; rw [h, pyDigitVal_underscore] at hc; simp at hc
    simp [goodTail, if_neg hcu, hc, ih (fun x hx => hall x (by simp [hx]))]

theorem stripUnderscores_of_digits (l : List Char)
    (hall : ∀ c ∈ l, (pyDigitVal c).isSome) : stripUnderscores l = l := by
  unfold stripUnderscores
  rw [List.filter_eq_self]
  intro c hc
  have hsome := hall c hc
  have hcu : c ≠ '_' := by
    intro h; rw [h, pyDigitVal_underscore] at hsome; simp at hsome
  simpa using hcu

theorem pyDigitsAux_digits (l : List Char) (acc : Nat)
    (hall : ∀ c ∈ l, (pyDigitVal c).isSome) :
    pyDigitsAux l acc = some (l.foldl (fun a c => 10 * a + dval c) acc) := by
  unfold pyDigitsAux
  rw [if_pos (goodTail_of_digits l hall), stripUnderscores_of_digits l hall]

theorem pyNatDigits_spec (l : List Char) (hne : l ≠ [])
    (hall : ∀ c ∈ l, (pyDigitVal c).isSome) :
    pyNatDigits l = some (l.foldl (fun a c => 10 * a + dval c) 0) := by
  match l with
  | [] => exact absurd rfl hne
  | c :: rest =>
    have hc := hall c (by simp)
    match hval : pyDigitVal c with
    | some d =>
      simp only [pyNatDigits, hval]
      rw [pyDigitsAux_digits rest _ (fun x hx => hall x (by simp [hx]))]
      simp [dval, hval]
    | none => rw [hval] at hc; simp at hc

theorem foldl_reverse_valLE :
    ∀ (l : List Char) (acc : Nat),
      (l.reverse).foldl (fun a c => 10 * a + dval c) acc = acc * 10 ^ l.length + valLE l := by
  intro l
  induction l with
  | nil => intro acc; simp [valLE]
  | cons c t ih =>
    intro acc
    simp only [List.reverse_cons, List.foldl_append, ih, List.foldl_cons, List.foldl_nil,
      valLE, List.length_cons]
    ring

theorem natStr_foldl (n : Nat) :
    (natStr n).foldl (fun a c => 10 * a + dval c) 0 = n := by
  unfold natStr
  by_cases hn : n = 0
  · rw [if_pos hn, hn]; decide
  · rw [if_neg hn, foldl_reverse_valLE]
    simp [(digitsRev_spec n n le_rfl).1]

theorem natStr_isSomeDigit (n : Nat) : ∀ c ∈ natStr n, (pyDigitVal c).isSome := by
  intro c hc
  obtain ⟨d, hd, rfl⟩ := natStr_digits n c hc
  simp [pyDigitVal_digitChar hd]

theorem pyNatDigits_natStr (n : Nat) : pyNatDigits (natStr n) = some n := by
  rw [pyNatDigits_spec _ (natStr_ne_nil n) (natStr_isSomeDigit n), natStr_foldl]

theorem dropWhile_eq_self_of_forall {p : Char → Bool} :
    ∀ l : List Char, (∀ c ∈ l, p c = false) → l.dropWhile p = l
  | [], _ => rfl
  | c :: t, h => by simp [List.dropWhile_cons, h c (by simp)]

theorem natStr_strip (n : Nat) :
    (((natStr n).dropWhile isPySpace).reverse.dropWhile isPySpace).reverse = natStr n := by
  have hnospace : ∀ c ∈ natStr n, isPySpace c = false := by
    intro c hc
    obtain ⟨d, hd, rfl⟩ := natStr_digits n c hc
    exact digitChar_not_space hd
  rw [dropWhile_eq_self_of_forall _ hnospace,
    dropWhile_eq_self_of_forall _ (fun c hc => hnospace c (List.mem_reverse.mp hc)),
    List.reverse_reverse]

theorem pyInt_natStr (n : Nat) : pyInt (natStr n) = some (n : Int) := by
  rw [pyInt, natStr_strip]
  obtain ⟨c, t, hct⟩ := List.exists_cons_of_ne_nil (natStr_ne_nil n)
  obtain ⟨d, hd, hcd⟩ := natStr_digits n c (by rw [hct]; simp)
  rw [hct, pyIntCore, if_neg (by rw [hcd]; exact digitChar_ne_plus hd),
    if_neg (by rw [hcd]; exact digitChar_ne_minus hd), ← hct, pyNatDigits_natStr]
  rfl

theorem natStr_injective {a b : Nat} (h : natStr a = natStr b) : a = b := by
  have ha := pyNatDigits_natStr a
  rw [h, pyNatDigits_natStr b] at ha
  exact (Option.some.inj ha).symm

/-! ### The modelled digest is injective and dot-free -/

theorem natStr_ne_x (n : Nat) : ∀ c ∈ natStr n, c ≠ 'x' := by
  intro c hc
  obtain ⟨d, hd, rfl⟩ := natStr_digits n c hc
  exact digitChar_ne_x hd

theorem hmacBlock_ne_dot (c : Char) : ∀ x ∈ hmacBlock c, x ≠ '.' := by
  intro x hx
  simp only [hmacBlock, List.mem_cons] at hx
  rcases hx with hx | hx
  · rw [hx]; decide
  · exact natStr_ne_dot _ x hx

theorem hmacHex_ne_dot (secret message : List Char) :
    ∀ x ∈ hmacHex secret message, x ≠ '.' := by
  intro x hx
  simp only [hmacHex, List.mem_flatMap] at hx
  obtain ⟨c, _, hc⟩ := hx
  exact hmacBlock_ne_dot c x hc

theorem flatMap_hmacBlock_shape (l : List Char) :
    l.flatMap hmacBlock = [] ∨ ∃ t, l.flatMap hmacBlock = 'x' :: t := by
  cases l with
  | nil => exact Or.inl rfl
  | cons c t =>
    exact Or.inr ⟨natStr c.toNat ++ t.flatMap hmacBlock, by simp [hmacBlock]⟩

theorem xfree_append_inj :
    ∀ (A B r1 r2 : List Char),
      (∀ c ∈ A, c ≠ 'x') → (∀ c ∈ B, c ≠ 'x') →
      (r1 = [] ∨ ∃ t, r1 = 'x' :: t) → (r2 = [] ∨ ∃ t, r2 = 'x' :: t) →
      A ++ r1 = B ++ r2 → A = B ∧ r1 = r2 := by
  intro A
  induction A with
  | nil =>
    intro B r1 r2 _ hB h1 _ heq
    match B with
    | [] => simpa using heq
    | b :: Bt =>
      exfalso
      rcases h1 with rfl | ⟨t, rfl⟩
      · simp at heq
      · simp only [List.nil_append, List.cons_append, List.cons.injEq] at heq
        exact hB b (by simp) heq.1.symm
  | cons a At ih =>
    intro B r1 r2 hA hB h1 h2 heq
    match B with
    | [] =>
      exfalso
      rcases h2 with rfl | ⟨t, rfl⟩
      · simp at heq
      · simp only [List.cons_append, List.nil_append, List.cons.injEq] at heq
        exact hA a (by simp) heq.1
    | b :: Bt =>
      simp only [List.cons_append, List.cons.injEq] at heq
      obtain ⟨rfl, htail⟩ := heq
      obtain ⟨hAB, hr⟩ := ih Bt r1 r2 (fun c hc => hA c (by simp [hc])) (fun c hc => hB c (by simp [hc])) h1 h2 htail
      exact ⟨by rw [hAB], hr⟩

theorem flatMap_hmacBlock_inj :
    ∀ l1 l2 : List Char, l1.flatMap hmacBlock = l2.flatMap hmacBlock → l1 = l2 := by
  intro l1
  induction l1 with
  | nil =>
    intro l2 h
    match l2 with
    | [] => rfl
    | c :: t => simp [hmacBlock] at h
  | cons c t ih =>
    intro l2 h
    match l2 with
    | [] => simp [hmacBlock] at h
    | c2 :: t2 =>
      simp only [List.flatMap_cons, hmacBlock, List.cons_append, List.cons.injEq] at h
      obtain ⟨hAB, hr⟩ := xfree_append_inj (natStr c.toNat) (natStr c2.toNat)
        (t.flatMap hmacBlock) (t2.flatMap hmacBlock)
        (natStr_ne_x _) (natStr_ne_x _)
        (flatMap_hmacBlock_shape t) (flatMap_hmacBlock_shape t2) h.2
      have hc : c = c2 := char_toNat_inj (natStr_injective hAB)
      rw [hc, ih t2 hr]

theorem hmacHex_injective {secret m1 m2 : List Char}
    (h : hmacHex secret m1 = hmacHex secret m2) : m1 = m2 := by
  have h2 := flatMap_hmacBlock_inj _ _ h
  have h3 := List.append_cancel_left h2
  simpa using h3

theorem tokenMessage_inj_expires {call_id : List Char} {seq e1 e2 : Nat}
    (h : tokenMessage call_id seq e1 = tokenMessage call_id seq e2) : e1 = e2 := by
  unfold tokenMessage at h
  have h1 := List.append_cancel_left h
  simp only [List.cons.injEq, true_and] at h1
  have h2 := List.append_cancel_left h1
  simp only [List.cons.injEq, true_and] at h2
  exact natStr_injective h2

/-! ### The dot split -/

theorem splitFirstDot_append {A : List Char} (hA : ∀ c ∈ A, c ≠ '.') (B : List Char) :
    splitFirstDot (A ++ '.' :: B) = some (A, B) := by
  induction A with
  | nil => simp [splitFirstDot]
  | cons c t ih =>
    have hc : c ≠ '.' := hA c (by simp)
    simp [splitFirstDot, hc, ih (fun x hx => hA x (by simp [hx]))]

theorem splitFirstDot_none {L : List Char} (hL : ∀ c ∈ L, c ≠ '.') :
    splitFirstDot L = none := by
  induction L with
  | nil => rfl
  | cons c t ih =>
    simp [splitFirstDot, hL c (by simp), ih (fun x hx => hL x (by simp [hx]))]

/-! ### Token round trip -/

theorem validate_create_roundtrip (secret call_id : List Char)
    (seq now ttl nowv : Nat) (h : nowv ≤ now + ttl) :
    validate_tts_token secret call_id seq nowv
      (create_tts_token secret call_id seq now ttl) = true := by
  unfold create_tts_token validate_tts_token
  rw [splitFirstDot_append (natStr_ne_dot _) _]
  have hle : ¬((nowv : Int) > ((now + ttl : Nat) : Int)) := by
    simp only [not_lt]
    exact_mod_cast h
  simp only [pyInt_natStr, hle]
  have htn : ((now : Int) + (ttl : Int)).toNat = now + ttl := by omega
  simp [htn]

/-! ### Single-character mutations of a token -/

theorem set_preserves_ne_dot {E : List Char} (hE : ∀ x ∈ E, x ≠ '.') {i : Nat}
    {c : Char} (hc : c ≠ '.') : ∀ x ∈ E.set i c, x ≠ '.' := by
  intro x hx
  rcases List.mem_or_eq_of_mem_set hx with h | h
  · exact hE x h
  · rw [h]; exact hc

theorem set_ne_of_getElem_ne {S : List Char} {j : Nat} (hj : j < S.length) {c : Char}
    (hc : S[j]? ≠ some c) : S.set j c ≠ S := by
  intro h
  have h2 := congrArg (fun l : List Char => l[j]?) h
  simp only at h2
  rw [List.getElem?_eq_getElem (by simpa using hj), List.getElem?_eq_getElem hj,
    List.getElem_set_self] at h2
  rw [List.getElem?_eq_getElem hj] at hc
  exact hc h2.symm

/-- Validation of a mutated freshly-created token, characterised: with the
token still unexpired, the mutated token is accepted exactly when the
mutation hits the expiry field, is not a `'.'`, and leaves the `int()`
value of the expiry field unchanged. -/
theorem validate_set_spec (secret call_id : List Char) (seq nowv e : Nat)
    (hnow : nowv ≤ e) (i : Nat) (c : Char)
    (hi : i < (natStr e ++ '.' :: hmacHex secret (tokenMessage call_id seq e)).length)
    (hc : (natStr e ++ '.' :: hmacHex secret (tokenMessage call_id seq e))[i]? ≠ some c) :
    (validate_tts_token secret call_id seq nowv
        ((natStr e ++ '.' :: hmacHex secret (tokenMessage call_id seq e)).set i c) = true)
      ↔ (i < (natStr e).length ∧ c ≠ '.' ∧
          pyInt ((natStr e).set i c) = some (e : Int)) := by
  set E := natStr e with hE
  set S := hmacHex secret (tokenMessage call_id seq e) with hS
  have hEd : ∀ x ∈ E, x ≠ '.' := natStr_ne_dot e
  have hSd : ∀ x ∈ S, x ≠ '.' := hmacHex_ne_dot _ _
  have hilen : i < E.length + 1 + S.length := by
    simpa [Nat.add_assoc, Nat.add_comm, Nat.add_left_comm] using hi
  rcases Nat.lt_trichotomy i E.length with hiE | hiE | hiE
  · -- mutation inside the expiry field
    have hset : (E ++ '.' :: S).set i c = E.set i c ++ '.' :: S := by
      rw [List.set_append, if_pos hiE]
    by_cases hcdot : c = '.'
    · -- the mutation introduces a second dot: always rejected
      subst hcdot
      apply iff_of_false
      · have hsplit : E.set i '.' = E.take i ++ '.' :: E.drop (i + 1) := by
          rw [List.set_eq_take_append_cons_drop, if_pos hiE]
        have htd : ∀ x ∈ E.take i, x ≠ '.' :=
          fun x hx => hEd x (List.take_subset i E hx)
        unfold validate_tts_token
        rw [hset, hsplit, List.append_assoc, List.cons_append]
        simp only [splitFirstDot_append htd (E.drop (i + 1) ++ '.' :: S)]
        cases hp : pyInt (E.take i) with
        | none => simp
        | some v =>
          by_cases hv : (nowv : Int) > v
          · simp [hv]
          · have hne : E.drop (i + 1) ++ '.' :: S
                ≠ hmacHex secret (tokenMessage call_id seq v.toNat) := by
              intro hcontra
              exact hmacHex_ne_dot secret (tokenMessage call_id seq v.toNat) '.'
                (by rw [← hcontra]; simp) rfl
            simp [hv, hne]
      · rintro ⟨_, hcne, _⟩
        exact hcne rfl
    · -- dot-free mutation of the expiry field
      have hset2 : ∀ x ∈ E.set i c, x ≠ '.' := set_preserves_ne_dot hEd hcdot
      unfold validate_tts_token
      rw [hset]
      simp only [splitFirstDot_append hset2 S]
      cases hp : pyInt (E.set i c) with
      | none => simp
      | some v =>
        by_cases hv : (nowv : Int) > v
        · apply iff_of_false
          · simp [hv]
          · rintro ⟨_, _, hpe⟩
            have hve : v = (e : Int) := Option.some.inj hpe
            rw [hve] at hv
            have hnv : ¬((nowv : Int) > (e : Int)) := by
              exact_mod_cast Nat.not_lt.mpr hnow
            exact hnv hv
        · simp only [hv, if_false, beq_iff_eq]
          constructor
          · intro hbeq
            have heqS : S = hmacHex secret (tokenMessage call_id seq v.toNat) := hbeq
            rw [hS] at heqS
            have hmsg := hmacHex_injective heqS
            have hee : e = v.toNat := tokenMessage_inj_expires hmsg
            refine ⟨hiE, hcdot, ?_⟩
            have hv0 : (0 : Int) ≤ v := le_trans (by positivity) (not_lt.mp hv)
            have hve : v = (e : Int) := by omega
            rw [← hve]
          · rintro ⟨_, _, hpe⟩
            have hve : v = (e : Int) := Option.some.inj hpe
            have hvt : v.toNat = e := by omega
            rw [hvt, ← hS]
  · -- mutation of the separating dot: the token no longer splits
    have hget : (E ++ '.' :: S)[i]? = some '.' := by
      rw [List.getElem?_append_right (by omega), hiE, Nat.sub_self]
      simp
    have hcd : c ≠ '.' := by
      intro h
      rw [hget] at hc
      exact hc (by rw [h])
    have hset : (E ++ '.' :: S).set i c = E ++ c :: S := by
      rw [List.set_append, if_neg (by omega), hiE, Nat.sub_self]
      rfl
    have hnone : splitFirstDot (E ++ c :: S) = none := by
      apply splitFirstDot_none
      intro x hx
      rcases List.mem_append.mp hx with h | h
      · exact hEd x h
      · rcases List.mem_cons.mp h with h | h
        · rw [h]; exact hcd
        · exact hSd x h
    apply iff_of_false
    · unfold validate_tts_token
      rw [hset]
      simp [hnone]
    · rintro ⟨hlt, _, _⟩
      omega
  · -- mutation inside the signature: digest comparison fails
    obtain ⟨j, hjeq⟩ : ∃ j, i - E.length = j + 1 := ⟨i - E.length - 1, by omega⟩
    have hj : j < S.length := by omega
    have hset : (E ++ '.' :: S).set i c = E ++ '.' :: S.set j c := by
      rw [List.set_append, if_neg (by omega), hjeq]
      rfl
    have hgetS : (E ++ '.' :: S)[i]? = S[j]? := by
      rw [List.getElem?_append_right (by omega), hjeq]
      simp
    have hSne : S.set j c ≠ S := by
      apply set_ne_of_getElem_ne hj
      rw [← hgetS]
      exact hc
    apply iff_of_false
    · unfold validate_tts_token
      rw [hset]
      simp only [splitFirstDot_append hEd (S.set j c)]
      have hpE : pyInt E = some (e : Int) := by rw [hE]; exact pyInt_natStr e
      have hnv : ¬((nowv : Int) > (e : Int)) := by exact_mod_cast Nat.not_lt.mpr hnow
      simp only [hpE, hnv, if_false, Int.toNat_natCast, ← hS]
      simp [hSne]
    · rintro ⟨hlt, _, _⟩
      omega

/-- Claim C3 (amended): a token produced by `create_tts_token(call_id, seq)`
validates true via `validate_tts_token(call_id, seq, token)` at any time
up to its expiry; and a token differing from it in exactly one character
(position `i` set to a different character `c`) is rejected, UNLESS the
changed position lies in the expiry field, the new character is not a
dot, and Python `int()` still parses the mutated expiry field to the same
value (e.g. an ASCII digit replaced by the equivalent Unicode decimal
digit), in which case the mutated token is still accepted. -/
theorem tts_token_roundtrip_mutation (secret call_id : List Char)
    (seq now ttl nowv : Nat) (hnow : nowv ≤ now + ttl) :
    (validate_tts_token secret call_id seq nowv
        (create_tts_token secret call_id seq now ttl) = true)
    ∧ (∀ (i : Nat) (hi : i < (create_tts_token secret call_id seq now ttl).length)
        (c : Char), c ≠ (create_tts_token secret call_id seq now ttl).get ⟨i, hi⟩ →
        ((validate_tts_token secret call_id seq nowv
            ((create_tts_token secret call_id seq now ttl).set i c) = true)
          ↔ (i < (natStr (now + ttl)).length ∧ c ≠ '.' ∧
              pyInt ((natStr (now + ttl)).set i c) = some ((now + ttl : Nat) : Int)))) := by
  constructor
  · exact validate_create_roundtrip secret call_id seq now ttl nowv hnow
  · intro i hi c hc
    have hc3 : (create_tts_token secret call_id seq now ttl)[i]? ≠ some c := by
      rw [List.getElem?_eq_getElem hi]
      intro h
      exact hc (Option.some.inj h).symm
    exact validate_set_spec secret call_id seq nowv (now + ttl) hnow i c hi hc3

/-- Claim C3 witness: concrete round trip through the theorem. -/
theorem tts_token_roundtrip_mutation_witness :
    validate_tts_token (['k']) (['c']) 1 10
      (create_tts_token (['k']) (['c']) 1 10 290) = true :=
  (tts_token_roundtrip_mutation (['k']) (['c']) 1 10 290 10 (by decide)).1

/-- Claim C3 counterexample: replacing the first character of a fresh token
(the ASCII digit `'3'` of the expiry field `"300"`) by the Arabic-Indic
digit three `U+0663` — which Python `int()` also parses as 3 — gives a
token that differs from the produced one in exactly one character yet
still validates true, refuting "any single-character mutation of the
token invalidates it". -/
theorem tts_token_mutation_counterexample :
    ((create_tts_token (['k']) (['c']) 1 10 290).set 0 (Char.ofNat 1635)
        ≠ create_tts_token (['k']) (['c']) 1 10 290)
    ∧ validate_tts_token (['k']) (['c']) 1 10
        ((create_tts_token (['k']) (['c']) 1 10 290).set 0 (Char.ofNat 1635)) = true := by
  decide

/-- Claim C4: a token whose embedded expiry is strictly earlier than the
current time is rejected by `validate_tts_token` and answered with `401`
by the audio endpoint, whatever its signature part holds; and any
accepted token has a signature that matches the recomputed digest and an
expiry no earlier than the current time. -/
theorem expired_token_rejected (secret call_id : List Char) (seq now : Nat)
    (token expStr sig : List Char) (e : Int)
    (hsplit : splitFirstDot token = some (expStr, sig))
    (hparse : pyInt expStr = some e)
    (hexp : e < (now : Int)) (audio : Option (List Nat)) :
    (validate_tts_token secret call_id seq now token = false
      ∧ serve_tts_audio secret call_id seq now token audio = AudioResp.unauthorized)
    ∧ (∀ token2, validate_tts_token secret call_id seq now token2 = true →
        ∃ expStr2 sig2 e2, splitFirstDot token2 = some (expStr2, sig2)
          ∧ pyInt expStr2 = some e2 ∧ (now : Int) ≤ e2
          ∧ sig2 = hmacHex secret (tokenMessage call_id seq e2.toNat)) := by
  have hval : validate_tts_token secret call_id seq now token = false := by
    unfold validate_tts_token
    rw [hsplit]
    simp only [hparse]
    rw [if_pos hexp]
  refine ⟨⟨hval, ?_⟩, ?_⟩
  · unfold serve_tts_audio
    rw [hval]
    simp
  · intro token2 hv2
    unfold validate_tts_token at hv2
    cases hs2 : splitFirstDot token2 with
    | none => rw [hs2] at hv2; simp at hv2
    | some p =>
      obtain ⟨expStr2, sig2⟩ := p
      rw [hs2] at hv2
      cases hp2 : pyInt expStr2 with
      | none => simp only [hp2] at hv2; simp at hv2
      | some e2 =>
        simp only [hp2] at hv2
        by_cases hgt : (now : Int) > e2
        · rw [if_pos hgt] at hv2; simp at hv2
        · rw [if_neg hgt] at hv2
          exact ⟨expStr2, sig2, e2, rfl, hp2, not_lt.mp hgt, by simpa using hv2⟩

/-- Claim C4 witness: a token that expired 85 seconds ago, with a
perfectly valid signature, is rejected and answered with 401. -/
theorem expired_token_rejected_witness :
    validate_tts_token (['k']) (['c']) 2 100
        (create_tts_token (['k']) (['c']) 2 5 10) = false
      ∧ serve_tts_audio (['k']) (['c']) 2 100
          (create_tts_token (['k']) (['c']) 2 5 10) (some [1]) = AudioResp.unauthorized :=
  (expired_token_rejected (['k']) (['c']) 2 100
    (create_tts_token (['k']) (['c']) 2 5 10)
    (natStr 15) (hmacHex (['k']) (tokenMessage (['c']) 2 15)) 15
    (by decide) (by decide) (by decide) (some [1])).1

/-! ## The conversational assistant (scheduler/openia.py)

The OpenAI chat endpoint is an external collaborator: it is modelled as a
stream `model : Nat → ModelMsg` giving the message returned by the n-th
chat-completion round trip of the turn.  The Google Calendar scheduler is
the oracle `cal : Nat → List Slot` behind `get_available_appointments`. -/

/-- Chat message roles. -/
inductive Role where
  | system
  | user
  | assistant
  | tool
deriving DecidableEq, Repr

/-- One chat message presented to the model. -/
structure Msg where
  role : Role
  content : String
deriving DecidableEq, Repr

/-- One entry of the per-call `history` list: a dict that may carry a
`"user"` and/or an `"assistant"` text (plus a timestamp the assistant
never reads). -/
structure HistEntry where
  user : Option String
  assistant : Option String
deriving DecidableEq, Repr

/-- The fixed system prompt of `OpenAIConversationAssistant` (openia.py
104-126); its exact wording is irrelevant to every claim, so it is kept
as one opaque constant string. -/
def systemPrompt : String :=
  "Eres Salomé (español colombiano), amable, cordial y breve. Objetivo: agendar cita."

/-- The explicit patient-context system note (openia.py 177-181). -/
def patientNote (nombre : String) : String :=
  "CONTEXTO: El paciente que llama se llama " ++ nombre ++
    ". Este NO es un doctor, es el PACIENTE que necesita agendar una cita."

/-- Rendering of one slot inside the offered-slots system note. -/
def slotJson (s : Slot) : String :=
  "\x7btexto: " ++ s.texto ++ ", doctor: " ++ s.doctor ++
    ", iso_inicio: " ++ s.iso_inicio ++ ", iso_fin: " ++ s.iso_fin ++ "\x7d"

/-- The offered-slots system note (openia.py 193-197). -/
def slotsNote (slots : List Slot) : String :=
  "Slots_ofrecidos_actualmente=[" ++
    String.intercalate ", " (slots.map slotJson) ++ "]"

/-- Messages contributed by one history entry (openia.py 184-188): a
user message for a truthy `"user"` text, then an assistant message for a
truthy `"assistant"` text. -/
def entryMsgs (h : HistEntry) : List Msg :=
  (match h.user with
   | some u => if u = "" then [] else [Msg.mk Role.user u]
   | none => []) ++
  (match h.assistant with
   | some a => if a = "" then [] else [Msg.mk Role.assistant a]
   | none => [])

/-- `(context or \x7b\x7d).get("nombre_paciente") or "Cliente"` (openia.py 170). -/
def patientName (nombre : Option String) : String :=
  match nombre with
  | some n => if n = "" then "Cliente" else n
  | none => "Cliente"

/-- The context messages built by `process` before the tool loop
(openia.py 169-197): system prompt, patient note when a real name is
known, the LAST TWO history entries (`history[-2:]`), the current user
utterance prefixed with the patient name, and — when nonempty — the
currently offered slots. -/
def buildMessages (nombre : Option String) (history : List HistEntry)
    (offered : List Slot) (user_text : String) : List Msg :=
  ([Msg.mk Role.system systemPrompt]
      ++ (if patientName nombre = "Cliente" then []
          else [Msg.mk Role.system (patientNote (patientName nombre))]))
    ++ (List.map entryMsgs (history.drop (history.length - 2))).flatten
    ++ [Msg.mk Role.user (patientName nombre ++ ": " ++ user_text)]
    ++ (if offered.isEmpty then [] else [Msg.mk Role.system (slotsNote offered)])

/-- Trailing punctuation stripped by `_limit_words` (`rstrip(",.;:¡!¿?")`). -/
def isTrimPunct (c : Char) : Bool :=
  c == ',' || c == '.' || c == ';' || c == ':' || c == '¡' || c == '!' || c == '¿' || c == '?'

/-- `_limit_words` (openia.py 18-22): keep the text when it has at most
`maxWords` whitespace-separated words, else join the first `maxWords`
words, strip trailing punctuation and append an ellipsis. -/
def limit_words (text : String) (maxWords : Nat) : String :=
  let words := pyWords text
  if words.length ≤ maxWords then text
  else
    String.mk (((String.intercalate " " (words.take maxWords)).data.reverse.dropWhile
      isTrimPunct).reverse) ++ "..."

/-- `_norm` (openia.py 14-15): strip then lowercase. -/
def normText (s : String) : String := String.mk ((stripChars s.data).map Char.toLower)

def startsWithChars : List Char → List Char → Bool
  | [], _ => true
  | _ :: _, [] => false
  | p :: ps, c :: cs => p == c && startsWithChars ps cs

/-- Python substring containment `needle in haystack`. -/
def containsChars (needle : List Char) : List Char → Bool
  | [] => needle.isEmpty
  | c :: cs => startsWithChars needle (c :: cs) || containsChars needle cs

/-- Farewell markers of the end-of-call heuristic (openia.py 282). -/
def farewellMarkers : List String :=
  ["hasta luego", "gracias", "feliz día", "buen día"]

/-- The farewell heuristic applied to the final utterance (openia.py 282-283). -/
def farewellHeuristic (say : String) : Bool :=
  farewellMarkers.any (fun w => containsChars w.data (normText say).data)

/-- The re-engagement fallback utterance (openia.py 286). -/
def fallbackSay : String := "¿Te gustaría agendar una cita? Puedo proponerte horarios."

/-- A tool invocation requested by the model. -/
inductive ToolCall where
  | get_slots (days_ahead : Nat) (doctor_hint : Option String)
  | answer_faq (query : String)
  | schedule (a : ScheduleAction)
deriving DecidableEq, Repr

/-- One chat-completion result: final text content and requested tool
calls (an empty list models a reply without `tool_calls`). -/
structure ModelMsg where
  content : String
  tool_calls : List ToolCall
deriving DecidableEq, Repr

/-- Mutable state threaded through the tool loop of `process`:
accumulated `schedule` actions, the `get_slots` cache (keyed by the tool
name alone), the number of Scheduler queries made, and the offered
slots. -/
structure LoopInner where
  actions : List ScheduleAction
  cache : Option (List Slot)
  calendarCalls : Nat
  offered : List Slot
deriving DecidableEq, Repr

/-- `_tool_get_slots` (openia.py 130-141): queries
`calendar.get_available_appointments(days_ahead=days_ahead)` — the
`doctor_hint` argument is accepted but never forwarded — and keeps the
four presentation fields of each slot. -/
def tool_get_slots (cal : Nat → List Slot) (days_ahead : Nat)
    (doctor_hint : Option String) : List Slot :=
  cal days_ahead

/-- Handling of one tool call inside the loop (openia.py 238-271). -/
def stepTool (cal : Nat → List Slot) (s : LoopInner) (tc : ToolCall) : LoopInner :=
  match tc with
  | .get_slots d h =>
    match s.cache with
    | some r => { s with offered := r }
    | none =>
      let r := tool_get_slots cal d h
      { s with cache := some r, calendarCalls := s.calendarCalls + 1, offered := r }
  | .answer_faq _ => s
  | .schedule a => { s with actions := s.actions ++ [a] }

/-- Result of the tool loop: the final utterance if the model produced
one, the threaded state, and the round counters. -/
structure LoopResult where
  say_text : Option String
  inner : LoopInner
  toolRuns : Nat
  modelCalls : Nat
deriving Repr

/-- The bounded tool-calling loop of `process` (openia.py 199-280):
`remaining = 3 - tool_runs` is the while-guard budget and `mc` counts
chat-completion round trips so far.  A reply without tool calls ends the
loop, keeping its content as the candidate utterance when the stripped
text is nonempty (truncated to 150 words). -/
def loopAux (model : Nat → ModelMsg) (cal : Nat → List Slot) :
    Nat → Nat → LoopInner → LoopResult
  | 0, mc, s => { say_text := none, inner := s, toolRuns := 3, modelCalls := mc }
  | remaining + 1, mc, s =>
    let msg := model mc
    if msg.tool_calls.isEmpty then
      { say_text :=
          if pyStrip msg.content = "" then none
          else some (limit_words (pyStrip msg.content) 150),
        inner := s, toolRuns := 3 - (remaining + 1), modelCalls := mc + 1 }
    else
      loopAux model cal remaining (mc + 1) (msg.tool_calls.foldl (stepTool cal) s)

/-- Everything `process` produces for one turn, plus the observable
counters the claims are about. -/
structure ProcessOutcome where
  reply : AgentReply
  messages : List Msg
  toolRuns : Nat
  modelCalls : Nat
  calendarCalls : Nat
deriving Repr

/-- `OpenAIConversationAssistant.process` (openia.py 169-294): build the
context messages, run the bounded tool loop starting from the offered
slots of the context, apply the farewell heuristic, substitute the
fallback utterance, and assemble the reply (the `slots` key is present
only when the final offered list is nonempty). -/
def assistantProcess (model : Nat → ModelMsg) (cal : Nat → List Slot)
    (nombre : Option String) (history : List HistEntry)
    (contextSlots : List Slot) (user_text : String) : ProcessOutcome :=
  let messages := buildMessages nombre history contextSlots user_text
  let r := loopAux model cal 3 0
    { actions := [], cache := none, calendarCalls := 0, offered := contextSlots }
  let end_call := match r.say_text with
    | some t => farewellHeuristic t
    | none => false
  { reply := { say_text := r.say_text.getD fallbackSay,
               actions := r.inner.actions.map AgentAction.schedule,
               slots := if r.inner.offered.isEmpty then none else some r.inner.offered,
               end_call := end_call },
    messages := messages,
    toolRuns := r.toolRuns,
    modelCalls := r.modelCalls,
    calendarCalls := r.inner.calendarCalls }

/-! ### Loop bounds, utterance fallback and the `get_slots` cache -/

theorem limit_words_ne_empty {t : String} (h : t ≠ "") (n : Nat) :
    limit_words t n ≠ "" := by
  unfold limit_words
  by_cases hlen : (pyWords t).length ≤ n
  · simpa [hlen] using h
  · rw [if_neg hlen]
    intro hcontra
    have hdata := congrArg String.data hcontra
    simp at hdata

theorem loopAux_say_ne_empty (model : Nat → ModelMsg) (cal : Nat → List Slot) :
    ∀ (fuel mc : Nat) (s : LoopInner) (t : String),
      (loopAux model cal fuel mc s).say_text = some t → t ≠ "" := by
  intro fuel
  induction fuel with
  | zero => intro mc s t h; simp [loopAux] at h
  | succ f ih =>
    intro mc s t h
    rw [loopAux] at h
    split at h
    · simp only at h
      split at h
      · simp at h
      · have ht := Option.some.inj h
        rw [← ht]
        exact limit_words_ne_empty (by assumption) 150
    · exact ih _ _ _ h

theorem loopAux_counts (model : Nat → ModelMsg) (cal : Nat → List Slot) :
    ∀ (fuel mc : Nat) (s : LoopInner),
      (loopAux model cal fuel mc s).toolRuns ≤ 3
      ∧ (loopAux model cal fuel mc s).modelCalls ≤ mc + fuel := by
  intro fuel
  induction fuel with
  | zero => intro mc s; simp [loopAux]
  | succ f ih =>
    intro mc s
    rw [loopAux]
    split
    · constructor
      · simp only
        omega
      · simp only
        omega
    · obtain ⟨h1, h2⟩ := ih (mc + 1) ((model mc).tool_calls.foldl (stepTool cal) s)
      exact ⟨h1, by omega⟩

/-- Invariant tying the `get_slots` cache to the number of Scheduler
queries: no query before the cache is filled, and never more than one. -/
def cacheInv (s : LoopInner) : Prop :=
  (s.cache = none → s.calendarCalls = 0) ∧ s.calendarCalls ≤ 1

theorem stepTool_cacheInv (cal : Nat → List Slot) {s : LoopInner}
    (h : cacheInv s) (tc : ToolCall) : cacheInv (stepTool cal s tc) := by
  obtain ⟨h1, h2⟩ := h
  cases tc with
  | get_slots d hint =>
    cases hcache : s.cache with
    | some r =>
      refine ⟨?_, ?_⟩ <;> simp [stepTool, hcache]
      exact h2
    | none =>
      have h0 := h1 hcache
      refine ⟨?_, ?_⟩ <;> simp [stepTool, hcache, h0]
  | answer_faq q => exact ⟨h1, h2⟩
  | schedule a =>
    refine ⟨?_, ?_⟩ <;> simp [stepTool]
    · exact h1
    · exact h2

theorem foldl_stepTool_cacheInv (cal : Nat → List Slot) :
    ∀ (l : List ToolCall) (s : LoopInner), cacheInv s →
      cacheInv (l.foldl (stepTool cal) s) := by
  intro l
  induction l with
  | nil => intro s h; exact h
  | cons tc rest ih =>
    intro s h
    exact ih _ (stepTool_cacheInv cal h tc)

theorem loopAux_cacheInv (model : Nat → ModelMsg) (cal : Nat → List Slot) :
    ∀ (fuel mc : Nat) (s : LoopInner), cacheInv s →
      cacheInv (loopAux model cal fuel mc s).inner := by
  intro fuel
  induction fuel with
  | zero => intro mc s h; exact h
  | succ f ih =>
    intro mc s h
    rw [loopAux]
    split
    · exact h
    · exact ih _ _ (foldl_stepTool_cacheInv cal _ _ h)

/-! ## Claim theorems for the turn orchestrator, the assistant and the
sequence counter -/

/-- Sample offered slot used by concrete counterexamples and witnesses. -/
def slotA : Slot :=
  { texto := "martes a las 9", doctor := "Dra. Gómez",
    iso_inicio := "2025-01-01T09:00:00", iso_fin := "2025-01-01T09:30:00" }

/-- Reply with one schedule action carrying explicit ISO datetimes that
match no offered slot, and no index. -/
def badIsoReply : AgentReply :=
  { say_text := "listo",
    actions := [AgentAction.schedule
      { index := none, iso_inicio := some "2025-02-02T10:00:00",
        iso_fin := some "2025-02-02T10:30:00" }],
    slots := none, end_call := false }

/-- Claim C1 counterexample: a schedule action with no index and an
iso_inicio matching no offered slot.  The claim predicts a failed action
with no booking and a recovery prompt; the code instead calls
`save_appointment_to_services` (reaching `calendar.create_appointment`)
with a synthetic fallback slot, and when the Calendar accepts it the
spoken reply carries the confirmation, not the recovery prompt. -/
theorem schedule_fallback_counterexample :
    find_slot_by_datetime [slotA] "2025-02-02T10:00:00" = none
    ∧ (processTurn (fun _ => true) [slotA] badIsoReply).saved ≠ []
    ∧ createAppointmentCalls ((processTurn (fun _ => true) [slotA] badIsoReply).saved) ≠ []
    ∧ recoveryPhrase ∉ (processTurn (fun _ => true) [slotA] badIsoReply).say_parts := by
  decide

/-- Claim C1 (amended): a schedule action that supplies neither a valid
index nor BOTH a (truthily present) iso_inicio and iso_fin fails: no
slot is handed to `save_appointment_to_services`, the recovery prompt is
appended to the spoken reply, and `end_call` keeps the agent value.
(When both ISO fields are supplied but iso_inicio matches no offered
slot, the code books a synthetic fallback slot instead — see the
counterexample.) -/
theorem schedule_invalid_no_booking (calOk : Slot → Bool)
    (stateSlots : List Slot) (a : ScheduleAction) (say : String) (e : Bool)
    (hiso : ¬(strTruthy a.iso_inicio = true ∧ strTruthy a.iso_fin = true))
    (hidx : ∀ idx : Int, a.index = some idx → ¬(0 ≤ idx ∧ idx < stateSlots.length)) :
    (processTurn calOk stateSlots
        (AgentReply.mk say [AgentAction.schedule a] none e)).saved = []
    ∧ recoveryPhrase ∈ (processTurn calOk stateSlots
        (AgentReply.mk say [AgentAction.schedule a] none e)).say_parts
    ∧ (processTurn calOk stateSlots
        (AgentReply.mk say [AgentAction.schedule a] none e)).end_call = e := by
  have hres : resolveSchedule stateSlots a = none := by
    unfold resolveSchedule
    rw [if_neg ?_]
    · cases hidxv : a.index with
      | none => rfl
      | some idx =>
        show (if 0 ≤ idx ∧ idx < (stateSlots.length : Int)
          then stateSlots.get? idx.toNat else none) = none
        rw [if_neg (hidx idx hidxv)]
    · intro hB
      exact hiso (by simpa [Bool.and_eq_true] using hB)
  rw [processTurn_eq]
  refine ⟨?_, ?_, ?_⟩
  · simp [scheduledSaves, slotsAfter, hres]
  · by_cases hsay : pyStrip say = "" <;>
      simp [actionOutcomes, slotsAfter, hres, outcomePhrase, hsay]
  · simp [actionOutcomes, slotsAfter, hres]

/-- Claim C1 witness: a schedule action carrying only an out-of-range
index fails with no booking and a recovery prompt. -/
theorem schedule_invalid_no_booking_witness :
    (processTurn (fun _ => true) []
        (AgentReply.mk "hola" [AgentAction.schedule (ScheduleAction.mk (some 5) none none)]
          none false)).saved = []
    ∧ recoveryPhrase ∈ (processTurn (fun _ => true) []
        (AgentReply.mk "hola" [AgentAction.schedule (ScheduleAction.mk (some 5) none none)]
          none false)).say_parts
    ∧ (processTurn (fun _ => true) []
        (AgentReply.mk "hola" [AgentAction.schedule (ScheduleAction.mk (some 5) none none)]
          none false)).end_call = false :=
  schedule_invalid_no_booking (fun _ => true) [] (ScheduleAction.mk (some 5) none none)
    "hola" false (by decide) (by intro idx h; simp_all)

/-- Claim C2: the tool loop of `process` performs at most 3 rounds of
tool use with at most 3 chat round trips (so the loop terminates: the
model of the loop is a total function of the round budget), and the
assembled reply always carries a non-empty `say_text` — in particular
whenever `end_call` is false — with the fallback re-engagement line
standing in when the model produced no final utterance. -/
theorem process_loop_bounded (model : Nat → ModelMsg) (cal : Nat → List Slot)
    (nombre : Option String) (history : List HistEntry)
    (contextSlots : List Slot) (user_text : String) :
    (assistantProcess model cal nombre history contextSlots user_text).toolRuns ≤ 3
    ∧ (assistantProcess model cal nombre history contextSlots user_text).modelCalls ≤ 3
    ∧ (assistantProcess model cal nombre history contextSlots user_text).reply.say_text ≠ "" := by
  obtain ⟨h1, h2⟩ := loopAux_counts model cal 3 0 (LoopInner.mk [] none 0 contextSlots)
  refine ⟨h1, by simpa using h2, ?_⟩
  cases hsay : (loopAux model cal 3 0 (LoopInner.mk [] none 0 contextSlots)).say_text with
  | none =>
    show ((loopAux model cal 3 0 (LoopInner.mk [] none 0 contextSlots)).say_text.getD
      fallbackSay) ≠ ""
    rw [hsay]
    decide
  | some t =>
    show ((loopAux model cal 3 0 (LoopInner.mk [] none 0 contextSlots)).say_text.getD
      fallbackSay) ≠ ""
    rw [hsay]
    exact loopAux_say_ne_empty model cal 3 0 _ t hsay

/-- History with three recorded turns, for the Claim C5 counterexample. -/
def hist3 : List HistEntry :=
  [HistEntry.mk (some "A") none, HistEntry.mk none (some "B"),
    HistEntry.mk (some "C") none]

/-- Claim C5 counterexample: with three turns recorded in the call
state, the first recorded user turn (text "A") appears in none of the
messages presented to the model — `process` slices `history[-2:]`, so
the full history is NOT presented. -/
theorem history_truncation_counterexample :
    HistEntry.mk (some "A") none ∈ hist3
    ∧ ∀ m ∈ buildMessages none hist3 [] "D", m.content ≠ "A" := by
  decide

/-- Claim C5 (amended): the context presented to the model contains the
patient name (prefixed to the current user message, plus an explicit
system note when a real name is known) and the currently offered slots
when nonempty, but — instead of the full history — exactly the last two
history records in insertion order: the messages depend on the history
only through `history[-2:]`, and every truthy turn of those two records
appears among the messages. -/
theorem context_messages_last_two (nombre : Option String)
    (history : List HistEntry) (offered : List Slot) (user_text : String) :
    (buildMessages nombre history offered user_text
        = buildMessages nombre (history.drop (history.length - 2)) offered user_text)
    ∧ (∀ h ∈ history.drop (history.length - 2),
        (∀ u, h.user = some u → u ≠ "" →
          Msg.mk Role.user u ∈ buildMessages nombre history offered user_text)
        ∧ (∀ a, h.assistant = some a → a ≠ "" →
          Msg.mk Role.assistant a ∈ buildMessages nombre history offered user_text))
    ∧ (Msg.mk Role.user (patientName nombre ++ ": " ++ user_text)
        ∈ buildMessages nombre history offered user_text)
    ∧ (offered ≠ [] →
        Msg.mk Role.system (slotsNote offered)
          ∈ buildMessages nombre history offered user_text)
    ∧ (patientName nombre ≠ "Cliente" →
        Msg.mk Role.system (patientNote (patientName nombre))
          ∈ buildMessages nombre history offered user_text) := by
  have hmemflat : ∀ m : Msg,
      m ∈ (List.map entryMsgs (history.drop (history.length - 2))).flatten →
        m ∈ buildMessages nombre history offered user_text := by
    intro m hm
    unfold buildMessages
    simp only [List.mem_append]
    tauto
  refine ⟨?_, ?_, ?_, ?_, ?_⟩
  · have h0 : (history.drop (history.length - 2)).length - 2 = 0 := by
      rw [List.length_drop]; omega
    unfold buildMessages
    rw [h0, List.drop_zero]
  · intro h hh
    constructor
    · intro u hu hne
      apply hmemflat
      refine List.mem_flatten.mpr ⟨entryMsgs h, List.mem_map_of_mem _ hh, ?_⟩
      simp [entryMsgs, hu, hne]
    · intro a ha hne
      apply hmemflat
      refine List.mem_flatten.mpr ⟨entryMsgs h, List.mem_map_of_mem _ hh, ?_⟩
      simp [entryMsgs, ha, hne]
  · unfold buildMessages
    simp [List.mem_append]
  · intro hne
    have ho : offered.isEmpty = false := by
      cases offered with
      | nil => exact absurd rfl hne
      | cons x xs => rfl
    unfold buildMessages
    simp [ho, List.mem_append]
  · intro hn
    unfold buildMessages
    simp [hn, List.mem_append]

/-- Claim C5 witness: the last user turn of a three-entry history does
appear among the presented messages. -/
theorem context_messages_last_two_witness :
    Msg.mk Role.user "C" ∈ buildMessages none hist3 [] "D" :=
  ((context_messages_last_two none hist3 [] "D").2.1 (HistEntry.mk (some "C") none)
    (by decide)).1 "C" rfl (by decide)

/-- Claim C6: in a turn, each successfully booked schedule action
appends the confirmation phrase and forces `end_call` to true; each
failed one appends the recovery phrase; when no booking succeeds
`end_call` is exactly what the agent reply specified, and any success
makes it true regardless of that value. -/
theorem booking_outcome_phrases_end_call (calOk : Slot → Bool)
    (stateSlots : List Slot) (reply : AgentReply) :
    ((processTurn calOk stateSlots reply).say_parts
        = (if pyStrip reply.say_text = "" then [] else [pyStrip reply.say_text])
            ++ (actionOutcomes calOk (slotsAfter stateSlots reply.slots)
                reply.actions).map outcomePhrase)
    ∧ ((processTurn calOk stateSlots reply).end_call
        = (reply.end_call
            || (actionOutcomes calOk (slotsAfter stateSlots reply.slots)
                reply.actions).any id))
    ∧ ((actionOutcomes calOk (slotsAfter stateSlots reply.slots) reply.actions).any id
          = false
        → (processTurn calOk stateSlots reply).end_call = reply.end_call) := by
  have h := processTurn_eq calOk stateSlots reply
  refine ⟨by rw [h], by rw [h], ?_⟩
  intro hf
  rw [h]
  simp [hf]

/-- Claim C6 witness: with the Calendar rejecting the booking, the
turn's `end_call` stays exactly the agent-specified value. -/
theorem booking_outcome_phrases_end_call_witness :
    (processTurn (fun _ => false) [slotA]
        (AgentReply.mk "ok" [AgentAction.schedule (ScheduleAction.mk (some 0) none none)]
          none true)).end_call = true :=
  (booking_outcome_phrases_end_call (fun _ => false) [slotA]
      (AgentReply.mk "ok" [AgentAction.schedule (ScheduleAction.mk (some 0) none none)]
        none true)).2.2 (by decide)

/-- Claim C7: a nonempty updated slot list in the agent reply fully
replaces the stored list (no merge); afterwards resolution happens only
against the new list — an iso_inicio matching no new entry finds no
slot, and an index beyond the new length is invalid — regardless of what
the prior list contained. -/
theorem slots_full_replace (calOk : Slot → Bool) (stateSlots newSlots : List Slot)
    (reply : AgentReply) (hr : reply.slots = some newSlots) (hne : newSlots ≠ []) :
    ((processTurn calOk stateSlots reply).slots = newSlots)
    ∧ (∀ iso, (∀ s ∈ newSlots, s.iso_inicio ≠ iso) →
        find_slot_by_datetime (processTurn calOk stateSlots reply).slots iso = none)
    ∧ (∀ idx : Int, (newSlots.length : Int) ≤ idx →
        resolveSchedule (processTurn calOk stateSlots reply).slots
          (ScheduleAction.mk (some idx) none none) = none) := by
  have hie : newSlots.isEmpty = false := by
    cases newSlots with
    | nil => exact absurd rfl hne
    | cons x xs => rfl
  have hafter : (processTurn calOk stateSlots reply).slots = newSlots := by
    rw [processTurn_eq]
    simp [slotsAfter, hr, hie]
  refine ⟨hafter, ?_, ?_⟩
  · intro iso hiso
    rw [hafter]
    unfold find_slot_by_datetime
    rw [List.find?_eq_none]
    intro s hs
    simpa using hiso s hs
  · intro idx hidx
    rw [hafter]
    unfold resolveSchedule
    rw [if_neg (by simp [strTruthy])]
    show (if 0 ≤ idx ∧ idx < (newSlots.length : Int)
      then newSlots.get? idx.toNat else none) = none
    rw [if_neg (by omega)]

/-- Claim C7 witness: after replacement by a one-slot list, the old
list's second index no longer resolves. -/
theorem slots_full_replace_witness :
    ((processTurn (fun _ => true) [slotA, slotA]
        (AgentReply.mk "" [] (some [slotA]) false)).slots = [slotA])
    ∧ resolveSchedule ((processTurn (fun _ => true) [slotA, slotA]
        (AgentReply.mk "" [] (some [slotA]) false)).slots)
        (ScheduleAction.mk (some 1) none none) = none := by
  have h := slots_full_replace (fun _ => true) [slotA, slotA] [slotA]
    (AgentReply.mk "" [] (some [slotA]) false) rfl (by decide)
  exact ⟨h.1, h.2.2 1 (by decide)⟩

/-- Claim C8: starting from a fresh record, the values handed out by
successive `next_seq` calls are exactly 1, 2, 3, …: each is one greater
than the previous, so they are strictly increasing and no value is ever
handed out twice. -/
theorem next_seq_strictly_increasing (n : Nat) :
    seqOutputs none n = List.range' 1 n
    ∧ List.Pairwise (fun x y => x < y) (seqOutputs none n)
    ∧ (seqOutputs none n).Nodup := by
  have h : seqOutputs none n = List.range' 1 n := by
    cases n with
    | zero => rfl
    | succ m => simp [seqOutputs, next_seq, seqOutputs_some, List.range'_succ]
  refine ⟨h, ?_, ?_⟩
  · rw [h]
    exact List.pairwise_lt_range' 1 n
  · rw [h]
    exact List.nodup_range' 1 n

/-- Claim C9: when synthesis fails or returns empty audio for the turn's
combined say-text, the handler still answers with a well-formed carrier
response: a bare re-prompt gather when the call continues, a hangup when
it ends. -/
theorem synthesis_failure_fallback (tts : String → Option (List Nat))
    (say_parts : List String) (end_call : Bool)
    (hfail : tts (String.intercalate " " say_parts) = none
      ∨ tts (String.intercalate " " say_parts) = some []) :
    turnResponse tts say_parts end_call
      = if end_call then Twiml.hangup else Twiml.gatherBasic := by
  unfold turnResponse
  by_cases hp : say_parts.isEmpty
  · simp [hp]
  · rw [if_neg hp]
    unfold speak_with_tts
    by_cases ht : pyStrip (String.intercalate " " say_parts) = ""
    · simp [ht]
    · rw [if_neg ht]
      rcases hfail with h | h <;> simp [h]

/-- Claim C9 witness: a failing synthesizer still yields a re-prompt
gather on a continuing call. -/
theorem synthesis_failure_fallback_witness :
    turnResponse (fun _ => none) ["hola"] false = Twiml.gatherBasic :=
  synthesis_failure_fallback (fun _ => none) ["hola"] false (Or.inl rfl)

/-- Claim C10: within one `process` invocation the Scheduler is queried
at most once: the `get_slots` result cache is keyed by the tool name
alone, so a second `get_slots` tool call — even with different
`days_ahead` and `doctor_hint` arguments — is answered with the first
call's result, with no new Scheduler query. -/
theorem get_slots_cached_single_query (model : Nat → ModelMsg)
    (cal : Nat → List Slot) (nombre : Option String) (history : List HistEntry)
    (contextSlots : List Slot) (user_text : String) :
    (assistantProcess model cal nombre history contextSlots user_text).calendarCalls ≤ 1
    ∧ (∀ (s : LoopInner) (d d2 : Nat) (h h2 : Option String), s.cache = none →
        stepTool cal (stepTool cal s (ToolCall.get_slots d h)) (ToolCall.get_slots d2 h2)
          = { stepTool cal s (ToolCall.get_slots d h)
              with offered := tool_get_slots cal d h }) := by
  constructor
  · have hinv := loopAux_cacheInv model cal 3 0 (LoopInner.mk [] none 0 contextSlots)
      ⟨fun _ => rfl, by norm_num⟩
    exact hinv.2
  · intro s d d2 h h2 hc
    simp [stepTool, hc, tool_get_slots]

/-- Claim C10 witness: a second `get_slots` with different arguments is
served from the cache. -/
theorem get_slots_cached_single_query_witness :
    stepTool (fun _ => [slotA])
        (stepTool (fun _ => [slotA]) (LoopInner.mk [] none 0 [])
          (ToolCall.get_slots 5 none))
        (ToolCall.get_slots 9 (some "doc"))
      = { stepTool (fun _ => [slotA]) (LoopInner.mk [] none 0 [])
            (ToolCall.get_slots 5 none)
          with offered := tool_get_slots (fun _ => [slotA]) 5 none } :=
  (get_slots_cached_single_query (fun _ => ModelMsg.mk "" []) (fun _ => [slotA])
      none [] [] "").2 (LoopInner.mk [] none 0 []) 5 9 none (some "doc") rfl

end VoiceDemo
